import Mathlib

set_option maxRecDepth 200000
set_option maxHeartbeats 2000000

/-!
Verification development for the docker stats viewer (`main.go`).

The Go program ingests newline-delimited JSON snapshot files, builds an
in-memory catalog sorted by timestamp descending, reconstructs per-container
time series sorted ascending, and aggregates per-container summary
statistics.  This file shallowly embeds the core functions
(`parseStatsFile`, `loadAllStatsFiles`, `getContainerComparison`,
`getContainerComparisonWithStats`, `getAllContainerSummaries`, and the
refresh step of `main`) and proves the specification claims about them.

Modelling conventions:
  * `time.Time` is modelled by `GoTime`, a six-field calendar value ordered
    lexicographically (year, month, day, hour, minute, second); this is the
    order `Before`/`After` induce on the wall-clock values the program uses.
  * `float64` is modelled by `ℚ`.  All numeric text occurring in docker
    percentage fields denotes finite decimals, which `ℚ` represents exactly.
  * `encoding/json.Unmarshal` for one line is an explicit function parameter
    `unmarshal : String → Option DockerStat` (it is an external library, not
    repository code); `none` models a decode error.
  * `time.Now()` is an explicit parameter `now : GoTime`.
  * Reading a directory yields an explicit list of `DirEntry`; an I/O error
    reading the directory itself is modelled by `Option` at the call site.
  * Go map iteration order is an explicit parameter `order : List String`
    constrained (in theorems) to enumerate the map's keys.
  * `sort.Slice` with a comparator `less` is modelled by `goSortSlice`,
    which produces a list sorted so that `less b a` fails for every pair in
    order, exactly the guarantee `sort.Slice` documents.
-/

/-- Calendar value modelling `time.Time` at second granularity (the program
only ever constructs and compares whole-second values). -/
structure GoTime where
  year : Nat
  month : Nat
  day : Nat
  hour : Nat
  minute : Nat
  second : Nat
deriving DecidableEq, Repr

/-- Lexicographic key of a `GoTime`; `Before`/`After` compare these keys. -/
def timeKey (t : GoTime) : List ℕ :=
  [t.year, t.month, t.day, t.hour, t.minute, t.second]

instance : LT GoTime := ⟨fun a b => timeKey a < timeKey b⟩

instance : LE GoTime := ⟨fun a b => timeKey a ≤ timeKey b⟩

instance (a b : GoTime) : Decidable (a < b) :=
  inferInstanceAs (Decidable (timeKey a < timeKey b))

instance (a b : GoTime) : Decidable (a ≤ b) :=
  inferInstanceAs (Decidable (timeKey a ≤ timeKey b))

/-- The zero `time.Time` (January 1, year 1, 00:00:00), returned by
`time.Parse` together with an error on malformed input. -/
def zeroTime : GoTime := ⟨1, 1, 1, 0, 0, 0⟩

/-- Split a character list at every occurrence of `sep`, like
`strings.Split` with a one-character separator. -/
def splitOnChar (sep : Char) : List Char → List (List Char)
  | [] => [[]]
  | c :: cs =>
    if c = sep then [] :: splitOnChar sep cs
    else
      match splitOnChar sep cs with
      | g :: gs => (c :: g) :: gs
      | [] => [[c]]

/-- Model of `strings.Split(s, "_")`. -/
def splitUnderscore (s : String) : List String :=
  (splitOnChar '_' s.data).map String.mk

/-- Model of `strings.HasSuffix`. -/
def strEndsWith (s suff : String) : Bool :=
  suff.data.isSuffixOf s.data

/-- Model of `strings.TrimSuffix`: drop `suff` once if present. -/
def goTrimSuffix (s suff : String) : String :=
  if suff.data.isSuffixOf s.data then
    String.mk (s.data.take (s.data.length - suff.data.length))
  else s

/-- Space characters recognised by `strings.TrimSpace` (the Latin-1 range of
`unicode.IsSpace`; higher Unicode space runes never occur in the inputs). -/
def isSpaceChar (c : Char) : Bool :=
  (9 ≤ c.toNat && c.toNat ≤ 13) || c.toNat = 32 || c.toNat = 133 || c.toNat = 160

/-- Model of `strings.TrimSpace`. -/
def trimSpace (s : String) : String :=
  String.mk (((s.data.dropWhile isSpaceChar).reverse.dropWhile isSpaceChar).reverse)

/-- Read exactly `n` decimal digits (accumulating into `acc`), like the
fixed-width numeric fields of `time.Parse`. -/
def readFixedDigits : Nat → Nat → List Char → Option (Nat × List Char)
  | 0, acc, cs => some (acc, cs)
  | n + 1, acc, c :: cs =>
    if c.isDigit then readFixedDigits n (acc * 10 + (c.toNat - 48)) cs else none
  | _ + 1, _, [] => none

/-- Read one or two decimal digits, like the non-fixed hour field `15` of a
Go time layout. -/
def readHour : List Char → Option (Nat × List Char)
  | [] => none
  | c :: cs =>
    if c.isDigit then
      match cs with
      | d :: cs2 =>
        if d.isDigit then some ((c.toNat - 48) * 10 + (d.toNat - 48), cs2)
        else some (c.toNat - 48, cs)
      | [] => some (c.toNat - 48, [])
    else none

/-- Consume one expected literal character. -/
def expectChar (c : Char) : List Char → Option (List Char)
  | d :: cs => if d = c then some cs else none
  | [] => none

/-- Gregorian leap-year rule used by `time.Parse` to validate days. -/
def isLeapYear (y : Nat) : Bool :=
  y % 4 = 0 && (y % 100 ≠ 0 || y % 400 = 0)

/-- Days in a month, as `time.Parse` uses to validate the day field. -/
def daysInMonth (m y : Nat) : Nat :=
  if m = 2 then (if isLeapYear y then 29 else 28)
  else if m = 4 ∨ m = 6 ∨ m = 9 ∨ m = 11 then 30
  else 31

/-- Model of `time.Parse` for the two layouts the program uses,
`2006-01-02_15-04-05` and `2006-01-02 15:04:05`: a four-digit year,
two-digit zero-padded month/day/minute/second, a one-or-two-digit hour,
literal separators `sep1` (before the hour) and `sep2` (around the minute),
full consumption of the input, and range validation of every field. -/
def parseTimeLayout (sep1 sep2 : Char) (s : String) : Option GoTime := do
  let (y, r) ← readFixedDigits 4 0 s.data
  let r ← expectChar '-' r
  let (mo, r) ← readFixedDigits 2 0 r
  let r ← expectChar '-' r
  let (d, r) ← readFixedDigits 2 0 r
  let r ← expectChar sep1 r
  let (h, r) ← readHour r
  let r ← expectChar sep2 r
  let (mi, r) ← readFixedDigits 2 0 r
  let r ← expectChar sep2 r
  let (sec, r) ← readFixedDigits 2 0 r
  if r = [] ∧ 1 ≤ mo ∧ mo ≤ 12 ∧ 1 ≤ d ∧ d ≤ daysInMonth mo y ∧
      h ≤ 23 ∧ mi ≤ 59 ∧ sec ≤ 59 then
    some ⟨y, mo, d, h, mi, sec⟩
  else none

/-- `time.Parse("2006-01-02_15-04-05", ·)`, used on filename segments. -/
def parseLayoutFile (s : String) : Option GoTime := parseTimeLayout '_' '-' s

/-- `time.Parse("2006-01-02 15:04:05", ·)`, used to re-parse formatted
timestamps inside sort comparators. -/
def parseLayoutDisplay (s : String) : Option GoTime := parseTimeLayout ' ' ':' s

/-- The Go idiom `t, _ := time.Parse(...)`: a failed parse yields the zero
time. -/
def parseOrZero (s : String) : GoTime := (parseLayoutDisplay s).getD zeroTime

/-- Zero-pad to two digits, as Go layout `01` formats. -/
def pad2 (n : Nat) : String := if n < 10 then "0" ++ toString n else toString n

/-- Zero-pad to four digits, as Go layout `2006` formats years `0`–`9999`. -/
def pad4 (n : Nat) : String :=
  if n < 10 then "000" ++ toString n
  else if n < 100 then "00" ++ toString n
  else if n < 1000 then "0" ++ toString n
  else toString n

/-- Model of `Timestamp.Format("2006-01-02 15:04:05")`. -/
def GoTime.format (t : GoTime) : String :=
  pad4 t.year ++ "-" ++ pad2 t.month ++ "-" ++ pad2 t.day ++ " " ++
    pad2 t.hour ++ ":" ++ pad2 t.minute ++ ":" ++ pad2 t.second

/-- Numeric value of a digit string. -/
def digitsVal (cs : List Char) : Nat :=
  cs.foldl (fun a c => a * 10 + (c.toNat - 48)) 0

/-- Model of `strconv.ParseFloat(s, 64)` on the finite decimal forms
(optional sign, digits with optional fraction, optional exponent); `none`
models a syntax error, in which case Go returns the value `0`.  The
`Inf`/`NaN`/hex-float forms, which docker percentage fields never contain,
are outside the model. -/
def goParseFloat (s : String) : Option ℚ :=
  let (sgn, cs1) :=
    match s.data with
    | '+' :: r => ((1 : ℚ), r)
    | '-' :: r => ((-1 : ℚ), r)
    | r => ((1 : ℚ), r)
  let (ip, cs2) := cs1.span Char.isDigit
  let (fp, cs3) :=
    match cs2 with
    | '.' :: r => r.span Char.isDigit
    | r => ([], r)
  if ip = [] ∧ fp = [] then none
  else
    let mant : ℚ := sgn * ((digitsVal ip : ℚ) + (digitsVal fp : ℚ) / ((10 : ℚ) ^ fp.length))
    match cs3 with
    | [] => some mant
    | c :: r =>
      if c = 'e' ∨ c = 'E' then
        let (esgn, r1) :=
          match r with
          | '+' :: r2 => ((1 : Int), r2)
          | '-' :: r2 => ((-1 : Int), r2)
          | r2 => ((1 : Int), r2)
        let (ed, r3) := r1.span Char.isDigit
        if ed = [] ∨ r3 ≠ [] then none
        else some (mant * (10 : ℚ) ^ (esgn * (digitsVal ed : Int)))
      else none

/-- One decoded docker stats record (struct `DockerStat` in `main.go`). -/
structure DockerStat where
  BlockIO : String
  CPUPerc : String
  Container : String
  ID : String
  MemPerc : String
  MemUsage : String
  Name : String
  NetIO : String
  PIDs : String
deriving DecidableEq, Repr

/-- One parsed snapshot file (struct `StatsFile` in `main.go`). -/
structure StatsFile where
  Name : String
  Timestamp : GoTime
  Stats : List DockerStat
deriving DecidableEq, Repr

/-- One entry of the stats directory as `os.ReadDir` lists it: its base
name, whether it is a subdirectory, and (for files) the lines of its
content as `bufio.Scanner` would deliver them. -/
structure DirEntry where
  name : String
  isDir : Bool
  lines : List String
deriving DecidableEq, Repr

/-- The line-decoding loop of `parseStatsFile`: trim each line, skip blank
lines, decode the rest via `unmarshal`; the first decode failure aborts the
whole file (`none`). -/
def parseLines (unmarshal : String → Option DockerStat) : List String → Option (List DockerStat)
  | [] => some []
  | line :: rest =>
    let l := trimSpace line
    if l = "" then parseLines unmarshal rest
    else
      match unmarshal l with
      | none => none
      | some stat => (parseLines unmarshal rest).map (stat :: ·)

/-- The timestamp-extraction block of `parseStatsFile` (`main.go:120-131`):
split the base name on `_`; only when there are at least three segments,
join the first two with `_` and try `time.Parse("2006-01-02_15-04-05", ·)`;
any failure falls back to `now` (`time.Now()`). -/
def extractTimestamp (now : GoTime) (basename : String) : GoTime :=
  if basename.data.contains '_' then
    match splitUnderscore basename with
    | p0 :: p1 :: _ :: _ =>
      match parseLayoutFile (p0 ++ "_" ++ p1) with
      | some t => t
      | none => now
    | _ => now
  else now

/-- `parseStatsFile` (`main.go:89-138`) on a file with base name `basename`
and content `lines`; `none` models the error return. -/
def parseStatsFile (unmarshal : String → Option DockerStat) (now : GoTime)
    (basename : String) (lines : List String) : Option StatsFile :=
  (parseLines unmarshal lines).map fun stats =>
    { Name := basename, Timestamp := extractTimestamp now basename, Stats := stats }

/-- Model of `sort.Slice(l, less)`: a permutation of `l` that is sorted with
respect to `less` (for every earlier/later pair `a, b` the comparator
`less b a` is false, which is the documented guarantee for a strict weak
order). -/
def goSortSlice {α : Type} (less : α → α → Bool) (l : List α) : List α :=
  List.insertionSort (fun a b => less b a = false) l

/-- `loadAllStatsFiles` (`main.go:141-169`) given the directory entries:
skip subdirectories and non-`.json` names, drop files that fail to parse,
and sort the survivors newest-first via `Timestamp.After`. -/
def loadAllStatsFiles (unmarshal : String → Option DockerStat) (now : GoTime)
    (entries : List DirEntry) : List StatsFile :=
  let statsFiles := entries.filterMap fun e =>
    if e.isDir || !(strEndsWith e.name ".json") then none
    else parseStatsFile unmarshal now e.name e.lines
  goSortSlice (fun a b => decide (timeKey b.Timestamp < timeKey a.Timestamp)) statsFiles

/-- One data point of a container series (struct `ContainerDataPoint`). -/
structure ContainerDataPoint where
  Timestamp : String
  CPUPerc : ℚ
  MemPerc : ℚ
  MemUsage : String
  NetIO : String
  BlockIO : String
  PIDs : String
deriving DecidableEq, Repr

/-- Conversion of one matching record into a data point, as done identically
at `main.go:179-195` (`getContainerComparison`) and `main.go:285-301`
(`getAllContainerSummaries`): strip a trailing `%`, parse the percentage
(`0` on failure), copy the raw text fields verbatim, and format the owning
file's timestamp. -/
def mkDataPoint (fileTs : GoTime) (stat : DockerStat) : ContainerDataPoint :=
  { Timestamp := fileTs.format
    CPUPerc := (goParseFloat (goTrimSuffix stat.CPUPerc "%")).getD 0
    MemPerc := (goParseFloat (goTrimSuffix stat.MemPerc "%")).getD 0
    MemUsage := stat.MemUsage
    NetIO := stat.NetIO
    BlockIO := stat.BlockIO
    PIDs := stat.PIDs }

/-- The comparator of the data-point sorts (`main.go:206-210` and
`main.go:316-320`): re-parse both timestamp strings (zero time on failure)
and compare with `Before`. -/
def pointLess (a b : ContainerDataPoint) : Bool :=
  decide (timeKey (parseOrZero a.Timestamp) < timeKey (parseOrZero b.Timestamp))

/-- Historical data of one container (struct `ContainerComparison`). -/
structure ContainerComparison where
  ContainerID : String
  ContainerName : String
  Data : List ContainerDataPoint
deriving DecidableEq, Repr

/-- `getContainerComparison` (`main.go:172-217`): scan every snapshot's
records for the given ID in catalog order, convert matchedStats to data points,
keep the first non-empty name encountered (the running-name fold), and sort
the points oldest-first. -/
def getContainerComparison (statsFiles : List StatsFile) (containerID : String) :
    ContainerComparison :=
  let matchedStats := statsFiles.flatMap fun sf =>
    (sf.Stats.filter fun stat => stat.ID == containerID).map fun stat => (sf.Timestamp, stat)
  let containerName := matchedStats.foldl (fun n m => if n = "" then m.2.Name else n) ""
  let dataPoints := matchedStats.map fun m => mkDataPoint m.1 m.2
  { ContainerID := containerID
    ContainerName := containerName
    Data := goSortSlice pointLess dataPoints }

/-- `ContainerComparisonWithStats` of `main.go`. -/
structure ContainerComparisonWithStats where
  toComparison : ContainerComparison
  AvgCPU : ℚ
  MaxCPU : ℚ
  MinCPU : ℚ
  AvgMem : ℚ
  MaxMem : ℚ
  MinMem : ℚ
deriving DecidableEq, Repr

/-- `getContainerComparisonWithStats` (`main.go:220-275`): on an empty
series return zero statistics; otherwise sum/scan the CPU and memory values
(max/min seeded with the first value) and divide the sums by the count. -/
def getContainerComparisonWithStats (statsFiles : List StatsFile) (containerID : String) :
    ContainerComparisonWithStats :=
  let comparison := getContainerComparison statsFiles containerID
  if comparison.Data.isEmpty then
    { toComparison := comparison
      AvgCPU := 0, MaxCPU := 0, MinCPU := 0, AvgMem := 0, MaxMem := 0, MinMem := 0 }
  else
    let cpuValues := comparison.Data.map ContainerDataPoint.CPUPerc
    let memValues := comparison.Data.map ContainerDataPoint.MemPerc
    let cpuSum := cpuValues.foldl (· + ·) 0
    let maxCPU := cpuValues.foldl (fun m c => if m < c then c else m) (cpuValues.headD 0)
    let minCPU := cpuValues.foldl (fun m c => if c < m then c else m) (cpuValues.headD 0)
    let memSum := memValues.foldl (· + ·) 0
    let maxMem := memValues.foldl (fun m c => if m < c then c else m) (memValues.headD 0)
    let minMem := memValues.foldl (fun m c => if c < m then c else m) (memValues.headD 0)
    { toComparison := comparison
      AvgCPU := cpuSum / (cpuValues.length : ℚ)
      MaxCPU := maxCPU
      MinCPU := minCPU
      AvgMem := memSum / (memValues.length : ℚ)
      MaxMem := maxMem
      MinMem := minMem }

/-- Aggregated statistics for one container (struct `ContainerSummary`). -/
structure ContainerSummary where
  ContainerID : String
  ContainerName : String
  DataPoints : Nat
  AvgCPU : ℚ
  MaxCPU : ℚ
  MinCPU : ℚ
  AvgMem : ℚ
  MaxMem : ℚ
  MinMem : ℚ
  FirstSeen : String
  LastSeen : String
deriving DecidableEq, Repr

/-- The collection loop of `getAllContainerSummaries` (`main.go:283-306`):
every record of every snapshot, in catalog order, keyed by its `ID`. -/
def collectPoints (statsFiles : List StatsFile) : List (String × ContainerDataPoint) :=
  statsFiles.flatMap fun sf =>
    sf.Stats.map fun stat => (stat.ID, mkDataPoint sf.Timestamp stat)

/-- The value `containerData[cid]` of the Go map after the collection loop:
all data points of that container in insertion order (`append` preserves
per-key order). -/
def pointsFor (statsFiles : List StatsFile) (cid : String) : List ContainerDataPoint :=
  ((collectPoints statsFiles).filter fun p => p.1 == cid).map Prod.snd

/-- The value `containerNames[cid]` after the collection loop: the loop
assigns `containerNames[stat.ID] = stat.Name` unconditionally, so the map
holds the last `Name` encountered for that ID ("" if the ID never occurs). -/
def lastNameFor (statsFiles : List StatsFile) (cid : String) : String :=
  ((statsFiles.flatMap fun sf => sf.Stats.filter fun stat => stat.ID == cid).foldl
    (fun _ stat => stat.Name) "")

/-- The key set of `containerData`, in first-insertion order; Go map
iteration visits these keys in an unspecified order, modelled below by any
permutation of this list. -/
def mapKeys (statsFiles : List StatsFile) : List String :=
  ((collectPoints statsFiles).map Prod.fst).dedup

/-- Default data point used only to express head/last of a list that is
provably non-empty at every use site (Go indexes `dataPoints[0]` directly).  -/
def dpDefault : ContainerDataPoint :=
  { Timestamp := "", CPUPerc := 0, MemPerc := 0, MemUsage := "", NetIO := "", BlockIO := "", PIDs := "" }

/-- The per-group body of `getAllContainerSummaries` (`main.go:315-364`):
sort the group's points by re-parsed timestamp, scan for sum/max/min of CPU
and memory (seeded with the first point), average by the count, and read
first/last seen off the sorted ends. -/
def summarizeGroup (cid name : String) (dps : List ContainerDataPoint) : ContainerSummary :=
  let sorted := goSortSlice pointLess dps
  let cpuSum := (sorted.map ContainerDataPoint.CPUPerc).foldl (· + ·) 0
  let maxCPU := (sorted.map ContainerDataPoint.CPUPerc).foldl
    (fun m c => if m < c then c else m) ((sorted.headD dpDefault).CPUPerc)
  let minCPU := (sorted.map ContainerDataPoint.CPUPerc).foldl
    (fun m c => if c < m then c else m) ((sorted.headD dpDefault).CPUPerc)
  let memSum := (sorted.map ContainerDataPoint.MemPerc).foldl (· + ·) 0
  let maxMem := (sorted.map ContainerDataPoint.MemPerc).foldl
    (fun m c => if m < c then c else m) ((sorted.headD dpDefault).MemPerc)
  let minMem := (sorted.map ContainerDataPoint.MemPerc).foldl
    (fun m c => if c < m then c else m) ((sorted.headD dpDefault).MemPerc)
  { ContainerID := cid
    ContainerName := name
    DataPoints := sorted.length
    AvgCPU := cpuSum / (sorted.length : ℚ)
    MaxCPU := maxCPU
    MinCPU := minCPU
    AvgMem := memSum / (sorted.length : ℚ)
    MaxMem := maxMem
    MinMem := minMem
    FirstSeen := (sorted.headD dpDefault).Timestamp
    LastSeen := (sorted.getLastD dpDefault).Timestamp }

/-- `getAllContainerSummaries` (`main.go:278-375`).  `order` is the sequence
in which the Go `range` over the map visits the keys (any permutation of
`mapKeys`); each visited key with a non-empty group yields one summary, and
the summaries are finally sorted by average CPU descending. -/
def getAllContainerSummaries (statsFiles : List StatsFile) (order : List String) :
    List ContainerSummary :=
  let summaries := order.filterMap fun cid =>
    let dps := pointsFor statsFiles cid
    if dps.isEmpty then none
    else some (summarizeGroup cid (lastNameFor statsFiles cid) dps)
  goSortSlice (fun a b => decide (b.AvgCPU < a.AvgCPU)) summaries

/-- One iteration of the refresh goroutine (`main.go:1131-1153`): if
`run.sh` failed (`runShOk = false`) keep the current catalog; if reading the
directory failed (`dirEntries = none`) keep it; if the reload yields zero
snapshots keep it; otherwise replace it wholesale with the new load. -/
def refreshStep (unmarshal : String → Option DockerStat) (now : GoTime)
    (current : List StatsFile) (runShOk : Bool) (dirEntries : Option (List DirEntry)) :
    List StatsFile :=
  if !runShOk then current
  else
    match dirEntries with
    | none => current
    | some entries =>
      let newFiles := loadAllStatsFiles unmarshal now entries
      if newFiles.isEmpty then current else newFiles

/-- A directory entry the loader will include: a regular `.json` file whose
content parses. -/
def isGoodEntry (unmarshal : String → Option DockerStat) (now : GoTime) (e : DirEntry) : Bool :=
  !e.isDir && strEndsWith e.name ".json" &&
    (parseStatsFile unmarshal now e.name e.lines).isSome

/-- A malformed candidate: a regular `.json` file whose content fails to
parse. -/
def isBadEntry (unmarshal : String → Option DockerStat) (now : GoTime) (e : DirEntry) : Bool :=
  !e.isDir && strEndsWith e.name ".json" &&
    !(parseStatsFile unmarshal now e.name e.lines).isSome

/-! ## Concrete fixtures used by witnesses and counterexamples -/

/-- First snapshot line of the spec's Scenario A. -/
def lineA1 : String :=
  "\x7b\"ID\":\"abc\",\"Name\":\"web\",\"CPUPerc\":\"10.00%\",\"MemPerc\":\"20.00%\"\x7d"

/-- Second snapshot line of the spec's Scenario A. -/
def lineA2 : String :=
  "\x7b\"ID\":\"abc\",\"Name\":\"web\",\"CPUPerc\":\"30.00%\",\"MemPerc\":\"40.00%\"\x7d"

/-- Record denoted by `lineA1` (unset JSON fields decode to ""). -/
def statA1 : DockerStat := ⟨"", "10.00%", "", "abc", "20.00%", "", "web", "", ""⟩

/-- Record denoted by `lineA2`. -/
def statA2 : DockerStat := ⟨"", "30.00%", "", "abc", "40.00%", "", "web", "", ""⟩

/-- Modelled from the spec: the behaviour of the external `json.Unmarshal`
on the two concrete Scenario A lines (a well-formed JSON object decodes to
the record with absent fields zero-valued; anything else is an error). -/
def scenarioAUnmarshal (s : String) : Option DockerStat :=
  if s = lineA1 then some statA1 else if s = lineA2 then some statA2 else none

/-- A fixed wall-clock instant standing for `time.Now()` in fixtures. -/
def aNow : GoTime := ⟨2026, 10, 12, 0, 0, 0⟩

/-- The Scenario A input directory. -/
def scenarioAEntries : List DirEntry :=
  [⟨"2024-01-01_10-00-00_x.json", false, [lineA1]⟩,
   ⟨"2024-01-01_11-00-00_x.json", false, [lineA2]⟩]

/-- The catalog loaded from the Scenario A directory. -/
def scenarioACatalog : List StatsFile :=
  loadAllStatsFiles scenarioAUnmarshal aNow scenarioAEntries

/-- Directory with one parseable file, one malformed file, one
subdirectory and one non-`.json` file. -/
def c1WitnessEntries : List DirEntry :=
  [⟨"2024-01-01_10-00-00_a.json", false, []⟩,
   ⟨"bad.json", false, ["not json"]⟩,
   ⟨"sub.json", true, []⟩,
   ⟨"notes.txt", false, []⟩]

/-- Catalog in which container `abc` carries name `web` in the newest file
and name `db` in the oldest: separates first-non-empty naming from
last-encountered naming. -/
def nameFiles : List StatsFile :=
  [⟨"f1.json", ⟨2024, 1, 1, 11, 0, 0⟩, [⟨"", "10.00%", "", "abc", "20.00%", "", "web", "", ""⟩]⟩,
   ⟨"f2.json", ⟨2024, 1, 1, 10, 0, 0⟩, [⟨"", "30.00%", "", "abc", "40.00%", "", "db", "", ""⟩]⟩]

/-- Two containers with equal average CPU in one snapshot. -/
def tieFiles : List StatsFile :=
  [⟨"t.json", ⟨2024, 1, 1, 10, 0, 0⟩,
    [⟨"", "5.00%", "", "a", "1.00%", "", "alpha", "", ""⟩,
     ⟨"", "5.00%", "", "b", "2.00%", "", "beta", "", ""⟩]⟩]

/-- The summary the aggregator produces for `nameFiles` (name is the LAST
encountered `Name`, here `db`). -/
def c5Summary : ContainerSummary :=
  ⟨"abc", "db", 2, 20, 30, 10, 30, 40, 20, "2024-01-01 10:00:00", "2024-01-01 11:00:00"⟩

/-- The summary the aggregator produces for the Scenario A catalog. -/
def aSummary : ContainerSummary :=
  ⟨"abc", "web", 2, 20, 30, 10, 30, 40, 20, "2024-01-01 10:00:00", "2024-01-01 11:00:00"⟩

/-! ## Generic lemmas about the embedded building blocks -/

/-- `goSortSlice` permutes its input. -/
theorem goSortSlice_perm {α : Type} (less : α → α → Bool) (l : List α) :
    (goSortSlice less l).Perm l :=
  List.perm_insertionSort _ _

/-- `goSortSlice` preserves length. -/
theorem goSortSlice_length {α : Type} (less : α → α → Bool) (l : List α) :
    (goSortSlice less l).length = l.length :=
  (goSortSlice_perm less l).length_eq

/-- `goSortSlice` membership. -/
theorem goSortSlice_mem {α : Type} (less : α → α → Bool) (l : List α) (x : α) :
    x ∈ goSortSlice less l ↔ x ∈ l :=
  (goSortSlice_perm less l).mem_iff

/-- If `less` decides a strict comparison of keys drawn from a linear order,
then `goSortSlice less` sorts ascending by key. -/
theorem goSortSlice_pairwise {α K : Type} [LinearOrder K] (less : α → α → Bool)
    (key : α → K) (hless : ∀ a b, less a b = true ↔ key a < key b) (l : List α) :
    (goSortSlice less l).Pairwise fun a b => key a ≤ key b := by
  have hr : ∀ a b : α, (less b a = false) ↔ key a ≤ key b := by
    intro a b
    rw [← not_lt, ← hless b a]
    cases h : less b a <;> simp
  haveI : IsTotal α (fun a b => less b a = false) := ⟨fun a b => by
    rw [hr, hr]; exact le_total (key a) (key b)⟩
  haveI : IsTrans α (fun a b => less b a = false) := ⟨fun a b c hab hbc => by
    rw [hr] at hab hbc ⊢; exact le_trans hab hbc⟩
  have h := List.sorted_insertionSort (fun a b : α => less b a = false) l
  exact List.Pairwise.imp (fun {a b} hab => (hr a b).mp hab) h

/-- Length of a `filterMap` as a count. -/
theorem length_filterMap_eq_countP {α β : Type} (f : α → Option β) (l : List α) :
    (l.filterMap f).length = l.countP fun a => (f a).isSome := by
  induction l with
  | nil => rfl
  | cons x xs ih =>
    cases h : f x <;>
      simp [List.filterMap_cons, h, List.countP_cons, ih]

/-- The running-maximum fold never drops below its seed. -/
theorem seed_le_foldl_max {K : Type} [LinearOrder K] (a : K) (l : List K) :
    a ≤ l.foldl (fun m c => if m < c then c else m) a := by
  induction l generalizing a with
  | nil => exact le_refl a
  | cons c cs ih =>
    refine le_trans ?_ (ih (if a < c then c else a))
    by_cases h : a < c <;> simp [h, le_of_lt]

/-- Every element is below the running-maximum fold. -/
theorem mem_le_foldl_max {K : Type} [LinearOrder K] (a : K) (l : List K) :
    ∀ x ∈ l, x ≤ l.foldl (fun m c => if m < c then c else m) a := by
  induction l generalizing a with
  | nil => intro x hx; cases hx
  | cons c cs ih =>
    intro x hx
    rcases List.mem_cons.mp hx with rfl | hx
    · refine le_trans ?_ (seed_le_foldl_max (if a < x then x else a) cs)
      by_cases h : a < x <;> simp [h]
      exact le_of_not_lt h
    · exact ih _ x hx

/-- The running-maximum fold returns its seed or a list element. -/
theorem foldl_max_mem {K : Type} [LinearOrder K] (a : K) (l : List K) :
    l.foldl (fun m c => if m < c then c else m) a ∈ a :: l := by
  induction l generalizing a with
  | nil => exact List.mem_singleton.mpr rfl
  | cons c cs ih =>
    have h := ih (if a < c then c else a)
    rcases List.mem_cons.mp h with h1 | h1
    · rw [List.foldl_cons, h1]
      by_cases hac : a < c <;> simp [hac]
    · exact List.mem_cons.mpr (Or.inr (List.mem_cons.mpr (Or.inr (by
        rw [List.foldl_cons]; exact h1))))

/-- The running-minimum fold never exceeds its seed. -/
theorem foldl_min_le_seed {K : Type} [LinearOrder K] (a : K) (l : List K) :
    l.foldl (fun m c => if c < m then c else m) a ≤ a := by
  induction l generalizing a with
  | nil => exact le_refl a
  | cons c cs ih =>
    refine le_trans (ih (if c < a then c else a)) ?_
    by_cases h : c < a <;> simp [h, le_of_lt]

/-- The running-minimum fold is below every element. -/
theorem foldl_min_le_mem {K : Type} [LinearOrder K] (a : K) (l : List K) :
    ∀ x ∈ l, l.foldl (fun m c => if c < m then c else m) a ≤ x := by
  induction l generalizing a with
  | nil => intro x hx; cases hx
  | cons c cs ih =>
    intro x hx
    rcases List.mem_cons.mp hx with rfl | hx
    · refine le_trans (foldl_min_le_seed (if x < a then x else a) cs) ?_
      by_cases h : x < a <;> simp [h]
      exact le_of_not_lt h
    · exact ih _ x hx

/-- The running-minimum fold returns its seed or a list element. -/
theorem foldl_min_mem {K : Type} [LinearOrder K] (a : K) (l : List K) :
    l.foldl (fun m c => if c < m then c else m) a ∈ a :: l := by
  induction l generalizing a with
  | nil => exact List.mem_singleton.mpr rfl
  | cons c cs ih =>
    have h := ih (if c < a then c else a)
    rcases List.mem_cons.mp h with h1 | h1
    · rw [List.foldl_cons, h1]
      by_cases hac : c < a <;> simp [hac]
    · exact List.mem_cons.mpr (Or.inr (List.mem_cons.mpr (Or.inr (by
        rw [List.foldl_cons]; exact h1))))

/-- The sum fold is the list sum. -/
theorem foldl_add_eq_sum (l : List ℚ) : l.foldl (· + ·) 0 = l.sum := by
  rw [List.sum_eq_foldl]

/-- A lower bound on every element bounds the sum from below. -/
theorem length_mul_le_sum (l : List ℚ) (m : ℚ) (h : ∀ x ∈ l, m ≤ x) :
    (l.length : ℚ) * m ≤ l.sum := by
  induction l with
  | nil => simp
  | cons x xs ih =>
    have hx := h x (List.mem_cons_self x xs)
    have hxs := ih fun y hy => h y (List.mem_cons_of_mem x hy)
    rw [List.sum_cons, List.length_cons]
    push_cast
    nlinarith

/-- An upper bound on every element bounds the sum from above. -/
theorem sum_le_length_mul (l : List ℚ) (m : ℚ) (h : ∀ x ∈ l, x ≤ m) :
    l.sum ≤ (l.length : ℚ) * m := by
  induction l with
  | nil => simp
  | cons x xs ih =>
    have hx := h x (List.mem_cons_self x xs)
    have hxs := ih fun y hy => h y (List.mem_cons_of_mem x hy)
    rw [List.sum_cons, List.length_cons]
    push_cast
    nlinarith

/-- The running-name fold keeps a non-empty accumulator unchanged. -/
theorem foldl_firstName_of_ne (l : List String) (acc : String) (h : acc ≠ "") :
    l.foldl (fun n s => if n = "" then s else n) acc = acc := by
  induction l with
  | nil => rfl
  | cons x xs ih => simp [h, ih]

/-- Starting empty, the running-name fold returns the first non-empty
element (or "" if none exists). -/
theorem foldl_firstName (l : List String) :
    l.foldl (fun n s => if n = "" then s else n) "" =
      (l.find? fun s => decide (s ≠ "")).getD "" := by
  induction l with
  | nil => rfl
  | cons x xs ih =>
    by_cases hx : x = ""
    · subst hx; simpa using ih
    · simp [hx, foldl_firstName_of_ne xs x hx]

/-- The keep-last fold returns the last element (or the seed if empty). -/
theorem foldl_keepLast {α : Type} (l : List α) (a : α) :
    l.foldl (fun _ s => s) a = l.getLastD a := by
  induction l generalizing a with
  | nil => rfl
  | cons x xs ih => rw [List.foldl_cons, List.getLastD_cons]; exact ih x

/-- In a `Pairwise r` list, the head is related to every other element. -/
theorem pairwise_headD {α : Type} {r : α → α → Prop} {l : List α} (h : l.Pairwise r)
    (d : α) : ∀ x ∈ l, x = l.headD d ∨ r (l.headD d) x := by
  cases l with
  | nil => intro x hx; cases hx
  | cons a t =>
    intro x hx
    rcases List.mem_cons.mp hx with rfl | hx
    · exact Or.inl rfl
    · exact Or.inr ((List.pairwise_cons.mp h).1 x hx)

/-- `getLastD` of a non-empty list is a member. -/
theorem getLastD_mem {α : Type} (l : List α) (d : α) (h : l ≠ []) :
    l.getLastD d ∈ l := by
  induction l generalizing d with
  | nil => exact absurd rfl h
  | cons x xs ih =>
    rw [List.getLastD_cons]
    by_cases hxs : xs = []
    · subst hxs; simp
    · exact List.mem_cons.mpr (Or.inr (ih x hxs))

/-- In a `Pairwise r` list, every element is related to the last one. -/
theorem pairwise_getLastD {α : Type} {r : α → α → Prop} {l : List α} (h : l.Pairwise r)
    (d : α) : ∀ x ∈ l, x = l.getLastD d ∨ r x (l.getLastD d) := by
  induction l generalizing d with
  | nil => intro x hx; cases hx
  | cons a t ih =>
    intro x hx
    rw [List.getLastD_cons]
    rcases List.mem_cons.mp hx with rfl | hx
    · by_cases ht : t = []
      · subst ht; exact Or.inl rfl
      · exact Or.inr ((List.pairwise_cons.mp h).1 _ (getLastD_mem t _ ht))
    · exact ih (List.pairwise_cons.mp h).2 a x hx

/-- Membership characterisation of the aggregator's output. -/
theorem mem_getAllContainerSummaries {statsFiles : List StatsFile} {order : List String}
    {s : ContainerSummary} :
    s ∈ getAllContainerSummaries statsFiles order ↔
      ∃ cid ∈ order, pointsFor statsFiles cid ≠ [] ∧
        s = summarizeGroup cid (lastNameFor statsFiles cid) (pointsFor statsFiles cid) := by
  unfold getAllContainerSummaries
  rw [(goSortSlice_perm _ _).mem_iff, List.mem_filterMap]
  constructor
  · rintro ⟨cid, hmem, hf⟩
    by_cases hemp : (pointsFor statsFiles cid).isEmpty
    · simp [hemp] at hf
    · simp only [hemp, Bool.false_eq_true, if_false, Option.some.injEq] at hf
      exact ⟨cid, hmem, fun hnil => hemp (by simp [hnil]), hf.symm⟩
  · rintro ⟨cid, hmem, hne, rfl⟩
    refine ⟨cid, hmem, ?_⟩
    have hemp : (pointsFor statsFiles cid).isEmpty = false := by
      cases hpf : pointsFor statsFiles cid with
      | nil => exact absurd hpf hne
      | cons p ps => simp
    simp [hemp]

/-! ## The claims -/

/-- C1: for every input directory containing N structurally well-formed
snapshot files and M malformed ones, loading the catalog succeeds and
returns exactly N snapshots; each malformed file is skipped and never
prevents any other file in the directory from loading. -/
theorem c1_load_keeps_wellformed_skips_malformed
    (unmarshal : String → Option DockerStat) (now : GoTime)
    (entries : List DirEntry) (N M : Nat)
    (hN : entries.countP (isGoodEntry unmarshal now) = N)
    (hM : entries.countP (isBadEntry unmarshal now) = M) :
    (loadAllStatsFiles unmarshal now entries).length = N := by
  subst hN
  show (goSortSlice _ (entries.filterMap fun e =>
    if e.isDir || !(strEndsWith e.name ".json") then none
    else parseStatsFile unmarshal now e.name e.lines)).length = _
  rw [goSortSlice_length, length_filterMap_eq_countP]
  apply List.countP_congr
  intro e _
  unfold isGoodEntry
  by_cases hd : e.isDir <;> by_cases hj : strEndsWith e.name ".json" = true <;>
    cases hp : parseStatsFile unmarshal now e.name e.lines <;>
      simp [hd, hj, hp]

/-- Witness for C1 on a concrete directory with one well-formed file, one
malformed file, one subdirectory and one non-`.json` file. -/
theorem c1_witness :
    (loadAllStatsFiles (fun _ => none) aNow c1WitnessEntries).length = 1 :=
  c1_load_keeps_wellformed_skips_malformed (fun _ => none) aNow c1WitnessEntries 1 1
    (by with_unfolding_all decide) (by with_unfolding_all decide)

/-- C2: every catalog returned by the loader is sorted by timestamp
descending (newest first): each later snapshot's timestamp is at most each
earlier one's. -/
theorem c2_catalog_sorted_descending
    (unmarshal : String → Option DockerStat) (now : GoTime) (entries : List DirEntry) :
    (loadAllStatsFiles unmarshal now entries).Pairwise fun a b =>
      b.Timestamp ≤ a.Timestamp := by
  have h := goSortSlice_pairwise
    (fun a b : StatsFile => decide (timeKey b.Timestamp < timeKey a.Timestamp))
    (fun sf => OrderDual.toDual (timeKey sf.Timestamp))
    (fun a b => by simp)
    (entries.filterMap fun e =>
      if e.isDir || !(strEndsWith e.name ".json") then none
      else parseStatsFile unmarshal now e.name e.lines)
  exact List.Pairwise.imp (fun {a b} hab => OrderDual.toDual_le_toDual.mp hab) h

/-- Witness for C2 on the Scenario A directory. -/
theorem c2_witness :
    (loadAllStatsFiles scenarioAUnmarshal aNow scenarioAEntries).Pairwise fun a b =>
      b.Timestamp ≤ a.Timestamp :=
  c2_catalog_sorted_descending scenarioAUnmarshal aNow scenarioAEntries

/-- C3: every reconstructed container series is sorted ascending by
timestamp: for any earlier/later pair whose timestamp strings both
re-parse, the parsed times are ordered. -/
theorem c3_series_sorted_ascending (statsFiles : List StatsFile) (containerID : String) :
    (getContainerComparison statsFiles containerID).Data.Pairwise fun p q =>
      ∀ tp tq, parseLayoutDisplay p.Timestamp = some tp →
        parseLayoutDisplay q.Timestamp = some tq → tp ≤ tq := by
  have h := goSortSlice_pairwise pointLess
    (fun p => timeKey (parseOrZero p.Timestamp))
    (fun a b => by simp [pointLess])
    ((statsFiles.flatMap fun sf =>
      (sf.Stats.filter fun stat => stat.ID == containerID).map fun stat =>
        (sf.Timestamp, stat)).map fun m => mkDataPoint m.1 m.2)
  refine List.Pairwise.imp ?_ h
  intro a b hab tp tq hp hq
  show timeKey tp ≤ timeKey tq
  have hpa : parseOrZero a.Timestamp = tp := by simp [parseOrZero, hp]
  have hqb : parseOrZero b.Timestamp = tq := by simp [parseOrZero, hq]
  rwa [hpa, hqb] at hab

/-- Witness for C3 on the Scenario A catalog. -/
theorem c3_witness :
    (getContainerComparison scenarioACatalog "abc").Data.Pairwise fun p q =>
      ∀ tp tq, parseLayoutDisplay p.Timestamp = some tp →
        parseLayoutDisplay q.Timestamp = some tq → tp ≤ tq :=
  c3_series_sorted_ascending scenarioACatalog "abc"

/-- The reconstructed series has exactly one data point per matching
record: numeric parse failures never drop a record. -/
theorem getContainerComparison_data_length (statsFiles : List StatsFile) (cid : String) :
    (getContainerComparison statsFiles cid).Data.length =
      (statsFiles.flatMap fun sf => sf.Stats.filter fun st => st.ID == cid).length := by
  show (goSortSlice pointLess ((statsFiles.flatMap fun sf =>
      (sf.Stats.filter fun stat => stat.ID == cid).map fun stat => (sf.Timestamp, stat)).map
      fun m => mkDataPoint m.1 m.2)).length = _
  rw [goSortSlice_length, List.length_map]
  induction statsFiles with
  | nil => rfl
  | cons sf rest ih =>
    simp only [List.flatMap_cons, List.length_append, List.length_map, ih]

/-- The aggregator's per-container group likewise has one data point per
matching record. -/
theorem pointsFor_length (statsFiles : List StatsFile) (cid : String) :
    (pointsFor statsFiles cid).length =
      ((statsFiles.flatMap StatsFile.Stats).filter fun st => st.ID == cid).length := by
  unfold pointsFor collectPoints
  rw [List.length_map]
  induction statsFiles with
  | nil => rfl
  | cons sf rest ih =>
    simp only [List.flatMap_cons, List.filter_append, List.length_append, ih]
    congr 1
    rw [List.filter_map, List.length_map]
    have hcomp : ((fun p : String × ContainerDataPoint => p.1 == cid) ∘
        fun stat => (stat.ID, mkDataPoint sf.Timestamp stat)) =
        fun st : DockerStat => st.ID == cid := rfl
    rw [hcomp]

/-- C4: percentages are parsed after stripping a trailing `%`; malformed or
missing percentage text yields `0.0` without raising any error (both
pipelines still emit one data point per matching record), and the raw text
fields are copied into the data point verbatim regardless of the numeric
parse outcome. -/
theorem c4_percent_parse_resilient (t : GoTime) (stat : DockerStat)
    (statsFiles : List StatsFile) (containerID : String) :
    (mkDataPoint t stat).CPUPerc = (goParseFloat (goTrimSuffix stat.CPUPerc "%")).getD 0 ∧
    (mkDataPoint t stat).MemPerc = (goParseFloat (goTrimSuffix stat.MemPerc "%")).getD 0 ∧
    (goParseFloat (goTrimSuffix stat.CPUPerc "%") = none → (mkDataPoint t stat).CPUPerc = 0) ∧
    (goParseFloat (goTrimSuffix stat.MemPerc "%") = none → (mkDataPoint t stat).MemPerc = 0) ∧
    (mkDataPoint t stat).MemUsage = stat.MemUsage ∧
    ContainerDataPoint.NetIO (mkDataPoint t stat) = stat.NetIO ∧
    ContainerDataPoint.BlockIO (mkDataPoint t stat) = stat.BlockIO ∧
    (mkDataPoint t stat).PIDs = stat.PIDs ∧
    (getContainerComparison statsFiles containerID).Data.length =
      (statsFiles.flatMap fun sf => sf.Stats.filter fun st => st.ID == containerID).length ∧
    (pointsFor statsFiles containerID).length =
      ((statsFiles.flatMap StatsFile.Stats).filter fun st => st.ID == containerID).length := by
  refine ⟨rfl, rfl, ?_, ?_, rfl, rfl, rfl, rfl,
    getContainerComparison_data_length statsFiles containerID,
    pointsFor_length statsFiles containerID⟩
  · intro h; simp [mkDataPoint, h]
  · intro h; simp [mkDataPoint, h]

/-- Witness for C4: malformed text `abc%` and missing text both parse to 0
while the raw memory-usage field survives verbatim. -/
theorem c4_witness :
    (mkDataPoint aNow ⟨"bio", "abc%", "", "x", "", "mu", "nm", "nio", "7"⟩).CPUPerc = 0 ∧
    (mkDataPoint aNow ⟨"bio", "abc%", "", "x", "", "mu", "nm", "nio", "7"⟩).MemPerc = 0 ∧
    (mkDataPoint aNow ⟨"bio", "abc%", "", "x", "", "mu", "nm", "nio", "7"⟩).MemUsage = "mu" := by
  have h := c4_percent_parse_resilient aNow ⟨"bio", "abc%", "", "x", "", "mu", "nm", "nio", "7"⟩ [] ""
  exact ⟨h.2.2.1 (by with_unfolding_all decide), h.2.2.2.1 (by with_unfolding_all decide),
    h.2.2.2.2.1⟩

/-- The mapped names of the matched records coincide between the pair view
and the record view. -/
theorem matched_names (statsFiles : List StatsFile) (cid : String) :
    ((statsFiles.flatMap fun sf =>
      (sf.Stats.filter fun stat => stat.ID == cid).map fun stat =>
        (sf.Timestamp, stat)).map fun m => m.2.Name) =
    (statsFiles.flatMap fun sf => sf.Stats.filter fun st => st.ID == cid).map
      DockerStat.Name := by
  induction statsFiles with
  | nil => rfl
  | cons sf rest ih =>
    simp only [List.flatMap_cons, List.map_append, ih, List.map_map]
    congr 1

/-- Counterexample to C5: over `nameFiles` the series carries the first
non-empty name `web`, but the all-containers summary carries `db`, the last
name encountered, so the summary's display name is not the first non-empty
one. -/
theorem c5_counterexample :
    mapKeys nameFiles = ["abc"] ∧
    (getAllContainerSummaries nameFiles ["abc"]).map ContainerSummary.ContainerName = ["db"] ∧
    (getContainerComparison nameFiles "abc").ContainerName = "web" ∧
    ("db" : String) ≠ "web" := by
  refine ⟨?_, ?_, ?_, ?_⟩ <;> with_unfolding_all decide

/-- C5 amended: the display name of a reconstructed series is the first
non-empty `Name` encountered while scanning the catalog's records for the
ID, but every all-containers summary carries the LAST `Name` encountered
for its ID (even when that is empty). -/
theorem c5_first_vs_last_name (statsFiles : List StatsFile) (cid : String)
    (order : List String) (s : ContainerSummary)
    (hs : s ∈ getAllContainerSummaries statsFiles order) :
    (getContainerComparison statsFiles cid).ContainerName =
      (((statsFiles.flatMap fun sf => sf.Stats.filter fun st => st.ID == cid).map
        DockerStat.Name).find? fun n => decide (n ≠ "")).getD "" ∧
    s.ContainerName =
      ((statsFiles.flatMap fun sf => sf.Stats.filter fun st => st.ID == s.ContainerID).map
        DockerStat.Name).getLastD "" := by
  constructor
  · have h1 := foldl_firstName ((statsFiles.flatMap fun sf =>
      (sf.Stats.filter fun stat => stat.ID == cid).map fun stat =>
        (sf.Timestamp, stat)).map fun m => m.2.Name)
    rw [List.foldl_map, matched_names statsFiles cid] at h1
    exact h1
  · obtain ⟨cid', hmem, hne, rfl⟩ := mem_getAllContainerSummaries.mp hs
    show lastNameFor statsFiles cid' = _
    have h2 := foldl_keepLast
      ((statsFiles.flatMap fun sf => sf.Stats.filter fun st => st.ID == cid').map
        DockerStat.Name) ""
    rw [List.foldl_map] at h2
    exact h2

/-- Witness for the amended C5 on `nameFiles`. -/
theorem c5_witness :
    (getContainerComparison nameFiles "abc").ContainerName =
      (((nameFiles.flatMap fun sf => sf.Stats.filter fun st => st.ID == "abc").map
        DockerStat.Name).find? fun n => decide (n ≠ "")).getD "" ∧
    c5Summary.ContainerName =
      ((nameFiles.flatMap fun sf => sf.Stats.filter fun st => st.ID == c5Summary.ContainerID).map
        DockerStat.Name).getLastD "" :=
  c5_first_vs_last_name nameFiles "abc" ["abc"] c5Summary (by with_unfolding_all decide)

/-- Two permuted lists, both sorted descending by a key that is injective on
their members, are equal. -/
theorem sorted_perm_eq {α K : Type} [LinearOrder K] (key : α → K) :
    ∀ (l1 l2 : List α), l1.Perm l2 →
      l1.Pairwise (fun a b => key b ≤ key a) →
      l2.Pairwise (fun a b => key b ≤ key a) →
      (∀ x ∈ l1, ∀ y ∈ l1, key x = key y → x = y) → l1 = l2
  | [], l2, hp, _, _, _ => by
    rw [hp.nil_eq]
  | a :: t1, [], hp, _, _, _ => by
    exact absurd hp.symm.nil_eq (by simp)
  | a :: t1, b :: t2, hp, hs1, hs2, hinj => by
    have hab : a = b := by
      have hamem : a ∈ b :: t2 := hp.mem_iff.mp (List.mem_cons_self a t1)
      have hbmem : b ∈ a :: t1 := hp.symm.mem_iff.mp (List.mem_cons_self b t2)
      rcases List.mem_cons.mp hamem with h1 | h1
      · exact h1
      rcases List.mem_cons.mp hbmem with h2 | h2
      · exact h2.symm
      have hk1 : key a ≤ key b := (List.pairwise_cons.mp hs2).1 a h1
      have hk2 : key b ≤ key a := (List.pairwise_cons.mp hs1).1 b h2
      exact hinj a (List.mem_cons_self a t1) b (List.mem_cons.mpr (Or.inr h2))
        (le_antisymm hk1 hk2)
    subst hab
    have ht : t1.Perm t2 := hp.cons_inv
    have := sorted_perm_eq key t1 t2 ht (List.pairwise_cons.mp hs1).2
      (List.pairwise_cons.mp hs2).2
      (fun x hx y hy hk => hinj x (List.mem_cons.mpr (Or.inr hx))
        y (List.mem_cons.mpr (Or.inr hy)) hk)
    rw [this]

/-- Counterexample to C6: with two containers of equal average CPU, two map
iteration orders (both enumerating the key set) yield summary lists that
are not bit-identical — the tie order differs. -/
theorem c6_counterexample :
    mapKeys tieFiles = ["a", "b"] ∧
    (["a", "b"] : List String).Perm ["b", "a"] ∧
    (getAllContainerSummaries tieFiles ["a", "b"]).map ContainerSummary.ContainerID =
      ["a", "b"] ∧
    (getAllContainerSummaries tieFiles ["b", "a"]).map ContainerSummary.ContainerID =
      ["b", "a"] ∧
    getAllContainerSummaries tieFiles ["a", "b"] ≠
      getAllContainerSummaries tieFiles ["b", "a"] := by
  refine ⟨?_, ?_, ?_, ?_, ?_⟩ <;> with_unfolding_all decide

/-- C6 amended: over a fixed catalog, any two aggregation runs (any two
enumerations of the map's keys) produce the same summaries up to
permutation, each run is sorted by average CPU descending, and the outputs
are bit-identical whenever no two distinct summaries share an average CPU;
only the relative order of equal-average summaries may differ. -/
theorem c6_aggregate_deterministic_up_to_ties (statsFiles : List StatsFile)
    (o1 o2 : List String) (h : o1.Perm o2) :
    (getAllContainerSummaries statsFiles o1).Perm (getAllContainerSummaries statsFiles o2) ∧
    (getAllContainerSummaries statsFiles o1).Pairwise (fun a b => b.AvgCPU ≤ a.AvgCPU) ∧
    ((∀ x ∈ getAllContainerSummaries statsFiles o1,
      ∀ y ∈ getAllContainerSummaries statsFiles o1, x.AvgCPU = y.AvgCPU → x = y) →
      getAllContainerSummaries statsFiles o1 = getAllContainerSummaries statsFiles o2) := by
  have sortedPW : ∀ o : List String,
      (getAllContainerSummaries statsFiles o).Pairwise fun a b => b.AvgCPU ≤ a.AvgCPU := by
    intro o
    have hp := goSortSlice_pairwise
      (fun a b : ContainerSummary => decide (b.AvgCPU < a.AvgCPU))
      (fun s => OrderDual.toDual s.AvgCPU) (fun a b => by simp)
      (o.filterMap fun cid =>
        if (pointsFor statsFiles cid).isEmpty then none
        else some (summarizeGroup cid (lastNameFor statsFiles cid) (pointsFor statsFiles cid)))
    exact List.Pairwise.imp (fun {a b} hab => OrderDual.toDual_le_toDual.mp hab) hp
  have hperm : (getAllContainerSummaries statsFiles o1).Perm
      (getAllContainerSummaries statsFiles o2) := by
    have hfm := h.filterMap fun cid =>
      if (pointsFor statsFiles cid).isEmpty then none
      else some (summarizeGroup cid (lastNameFor statsFiles cid) (pointsFor statsFiles cid))
    exact ((goSortSlice_perm _ _).trans hfm).trans (goSortSlice_perm _ _).symm
  refine ⟨hperm, sortedPW o1, fun hinj => ?_⟩
  exact sorted_perm_eq ContainerSummary.AvgCPU _ _ hperm (sortedPW o1) (sortedPW o2) hinj

/-- Witness for the amended C6 on the Scenario A catalog. -/
theorem c6_witness :
    (getAllContainerSummaries scenarioACatalog ["abc"]).Perm
      (getAllContainerSummaries scenarioACatalog ["abc"]) ∧
    (getAllContainerSummaries scenarioACatalog ["abc"]).Pairwise
      (fun a b => b.AvgCPU ≤ a.AvgCPU) ∧
    ((∀ x ∈ getAllContainerSummaries scenarioACatalog ["abc"],
      ∀ y ∈ getAllContainerSummaries scenarioACatalog ["abc"], x.AvgCPU = y.AvgCPU → x = y) →
      getAllContainerSummaries scenarioACatalog ["abc"] =
        getAllContainerSummaries scenarioACatalog ["abc"]) :=
  c6_aggregate_deterministic_up_to_ties scenarioACatalog ["abc"] ["abc"] (List.Perm.refl _)

/-- The seeded maximum fold over a non-empty list is a member and an upper
bound. -/
theorem listMax_spec (L : List ℚ) (hne : L ≠ []) :
    L.foldl (fun m c => if m < c then c else m) (L.headD 0) ∈ L ∧
    ∀ x ∈ L, x ≤ L.foldl (fun m c => if m < c then c else m) (L.headD 0) := by
  have hh : L.headD 0 ∈ L := by
    cases L with
    | nil => exact absurd rfl hne
    | cons a t => simp
  constructor
  · rcases List.mem_cons.mp (foldl_max_mem (L.headD 0) L) with h | h
    · rw [h]; exact hh
    · exact h
  · exact mem_le_foldl_max _ _

/-- The seeded minimum fold over a non-empty list is a member and a lower
bound. -/
theorem listMin_spec (L : List ℚ) (hne : L ≠ []) :
    L.foldl (fun m c => if c < m then c else m) (L.headD 0) ∈ L ∧
    ∀ x ∈ L, L.foldl (fun m c => if c < m then c else m) (L.headD 0) ≤ x := by
  have hh : L.headD 0 ∈ L := by
    cases L with
    | nil => exact absurd rfl hne
    | cons a t => simp
  constructor
  · rcases List.mem_cons.mp (foldl_min_mem (L.headD 0) L) with h | h
    · rw [h]; exact hh
    · exact h
  · exact foldl_min_le_mem _ _

/-- Unfolding of the non-empty branch of `getContainerComparisonWithStats`. -/
theorem withStats_of_ne (statsFiles : List StatsFile) (cid : String)
    (h : (getContainerComparison statsFiles cid).Data.isEmpty = false) :
    getContainerComparisonWithStats statsFiles cid =
      { toComparison := getContainerComparison statsFiles cid
        AvgCPU := (((getContainerComparison statsFiles cid).Data.map
            ContainerDataPoint.CPUPerc).foldl (· + ·) 0) /
          ((((getContainerComparison statsFiles cid).Data.map
            ContainerDataPoint.CPUPerc)).length : ℚ)
        MaxCPU := ((getContainerComparison statsFiles cid).Data.map
            ContainerDataPoint.CPUPerc).foldl (fun m c => if m < c then c else m)
          (((getContainerComparison statsFiles cid).Data.map
            ContainerDataPoint.CPUPerc).headD 0)
        MinCPU := ((getContainerComparison statsFiles cid).Data.map
            ContainerDataPoint.CPUPerc).foldl (fun m c => if c < m then c else m)
          (((getContainerComparison statsFiles cid).Data.map
            ContainerDataPoint.CPUPerc).headD 0)
        AvgMem := (((getContainerComparison statsFiles cid).Data.map
            ContainerDataPoint.MemPerc).foldl (· + ·) 0) /
          ((((getContainerComparison statsFiles cid).Data.map
            ContainerDataPoint.MemPerc)).length : ℚ)
        MaxMem := ((getContainerComparison statsFiles cid).Data.map
            ContainerDataPoint.MemPerc).foldl (fun m c => if m < c then c else m)
          (((getContainerComparison statsFiles cid).Data.map
            ContainerDataPoint.MemPerc).headD 0)
        MinMem := ((getContainerComparison statsFiles cid).Data.map
            ContainerDataPoint.MemPerc).foldl (fun m c => if c < m then c else m)
          (((getContainerComparison statsFiles cid).Data.map
            ContainerDataPoint.MemPerc).headD 0) } := by
  simp only [getContainerComparisonWithStats, h, Bool.false_eq_true, if_false]

/-- Unfolding of the empty branch of `getContainerComparisonWithStats`. -/
theorem withStats_of_empty (statsFiles : List StatsFile) (cid : String)
    (h : (getContainerComparison statsFiles cid).Data.isEmpty = true) :
    getContainerComparisonWithStats statsFiles cid =
      { toComparison := getContainerComparison statsFiles cid
        AvgCPU := 0, MaxCPU := 0, MinCPU := 0, AvgMem := 0, MaxMem := 0, MinMem := 0 } := by
  simp only [getContainerComparisonWithStats, h, if_true]

/-- C7: for a non-empty container series the summary's averages are the
arithmetic means over all data points and max/min are attained maxima and
minima over all data points; for an empty series every derived statistic is
zero; and on the two Scenario A files container `abc` has a 2-point series
with CPU values `[10, 30]` in that order, average CPU `20`, max `30`,
min `10`. -/
theorem c7_single_container_stats (statsFiles : List StatsFile) (cid : String) :
    ((getContainerComparison statsFiles cid).Data ≠ [] →
      (getContainerComparisonWithStats statsFiles cid).AvgCPU =
        ((getContainerComparison statsFiles cid).Data.map ContainerDataPoint.CPUPerc).sum /
          (((getContainerComparison statsFiles cid).Data.length : ℚ)) ∧
      (getContainerComparisonWithStats statsFiles cid).AvgMem =
        ((getContainerComparison statsFiles cid).Data.map ContainerDataPoint.MemPerc).sum /
          (((getContainerComparison statsFiles cid).Data.length : ℚ)) ∧
      (getContainerComparisonWithStats statsFiles cid).MaxCPU ∈
        (getContainerComparison statsFiles cid).Data.map ContainerDataPoint.CPUPerc ∧
      (∀ x ∈ (getContainerComparison statsFiles cid).Data.map ContainerDataPoint.CPUPerc,
        x ≤ (getContainerComparisonWithStats statsFiles cid).MaxCPU) ∧
      (getContainerComparisonWithStats statsFiles cid).MinCPU ∈
        (getContainerComparison statsFiles cid).Data.map ContainerDataPoint.CPUPerc ∧
      (∀ x ∈ (getContainerComparison statsFiles cid).Data.map ContainerDataPoint.CPUPerc,
        (getContainerComparisonWithStats statsFiles cid).MinCPU ≤ x) ∧
      (getContainerComparisonWithStats statsFiles cid).MaxMem ∈
        (getContainerComparison statsFiles cid).Data.map ContainerDataPoint.MemPerc ∧
      (∀ x ∈ (getContainerComparison statsFiles cid).Data.map ContainerDataPoint.MemPerc,
        x ≤ (getContainerComparisonWithStats statsFiles cid).MaxMem) ∧
      (getContainerComparisonWithStats statsFiles cid).MinMem ∈
        (getContainerComparison statsFiles cid).Data.map ContainerDataPoint.MemPerc ∧
      (∀ x ∈ (getContainerComparison statsFiles cid).Data.map ContainerDataPoint.MemPerc,
        (getContainerComparisonWithStats statsFiles cid).MinMem ≤ x)) ∧
    ((getContainerComparison statsFiles cid).Data = [] →
      (getContainerComparisonWithStats statsFiles cid).AvgCPU = 0 ∧
      (getContainerComparisonWithStats statsFiles cid).MaxCPU = 0 ∧
      (getContainerComparisonWithStats statsFiles cid).MinCPU = 0 ∧
      (getContainerComparisonWithStats statsFiles cid).AvgMem = 0 ∧
      (getContainerComparisonWithStats statsFiles cid).MaxMem = 0 ∧
      (getContainerComparisonWithStats statsFiles cid).MinMem = 0) ∧
    ((getContainerComparison scenarioACatalog "abc").Data.length = 2 ∧
      (getContainerComparison scenarioACatalog "abc").Data.map ContainerDataPoint.CPUPerc =
        [10, 30] ∧
      (getContainerComparisonWithStats scenarioACatalog "abc").AvgCPU = 20 ∧
      (getContainerComparisonWithStats scenarioACatalog "abc").MaxCPU = 30 ∧
      (getContainerComparisonWithStats scenarioACatalog "abc").MinCPU = 10) := by
  refine ⟨?_, ?_, ?_⟩
  · intro hne
    have hb : (getContainerComparison statsFiles cid).Data.isEmpty = false := by
      cases hD : (getContainerComparison statsFiles cid).Data with
      | nil => exact absurd hD hne
      | cons p ps => rfl
    have hneC : (getContainerComparison statsFiles cid).Data.map
        ContainerDataPoint.CPUPerc ≠ [] := by
      simpa using hne
    have hneM : (getContainerComparison statsFiles cid).Data.map
        ContainerDataPoint.MemPerc ≠ [] := by
      simpa using hne
    rw [withStats_of_ne statsFiles cid hb]
    refine ⟨?_, ?_, (listMax_spec _ hneC).1, (listMax_spec _ hneC).2,
      (listMin_spec _ hneC).1, (listMin_spec _ hneC).2,
      (listMax_spec _ hneM).1, (listMax_spec _ hneM).2,
      (listMin_spec _ hneM).1, (listMin_spec _ hneM).2⟩
    · show (((getContainerComparison statsFiles cid).Data.map
          ContainerDataPoint.CPUPerc).foldl (· + ·) 0) / _ = _
      rw [foldl_add_eq_sum, List.length_map]
    · show (((getContainerComparison statsFiles cid).Data.map
          ContainerDataPoint.MemPerc).foldl (· + ·) 0) / _ = _
      rw [foldl_add_eq_sum, List.length_map]
  · intro hD
    have hb : (getContainerComparison statsFiles cid).Data.isEmpty = true := by
      rw [hD]; rfl
    rw [withStats_of_empty statsFiles cid hb]
    exact ⟨rfl, rfl, rfl, rfl, rfl, rfl⟩
  · refine ⟨?_, ?_, ?_, ?_, ?_⟩ <;> with_unfolding_all decide

/-- Witness for C7 at the Scenario A catalog: the non-empty hypothesis is
discharged concretely and the mean formula is exercised. -/
theorem c7_witness :
    (getContainerComparisonWithStats scenarioACatalog "abc").AvgCPU =
      ((getContainerComparison scenarioACatalog "abc").Data.map
        ContainerDataPoint.CPUPerc).sum /
        (((getContainerComparison scenarioACatalog "abc").Data.length : ℚ)) ∧
    (getContainerComparisonWithStats scenarioACatalog "abc").AvgCPU = 20 := by
  have h := c7_single_container_stats scenarioACatalog "abc"
  exact ⟨(h.1 (by with_unfolding_all decide)).1, h.2.2.2.2.1⟩

/-- A list without the separator splits into a single group. -/
theorem splitOnChar_no_sep (sep : Char) (cs : List Char) (h : cs.contains sep = false) :
    splitOnChar sep cs = [cs] := by
  induction cs with
  | nil => rfl
  | cons c cs ih =>
    rw [List.contains_cons, Bool.or_eq_false_iff] at h
    have hcne : ¬ (c = sep) := by
      intro hcs
      subst hcs
      simp at h
    unfold splitOnChar
    rw [if_neg hcne, ih h.2]

/-- Case description of the timestamp-extraction block: three or more
segments trigger the parse attempt, anything else keeps `now`. -/
theorem extractTimestamp_eq (now : GoTime) (basename : String) :
    extractTimestamp now basename =
      (match splitUnderscore basename with
      | p0 :: p1 :: _ :: _ =>
        (match parseLayoutFile (p0 ++ "_" ++ p1) with
        | some t => t
        | none => now)
      | _ => now) := by
  unfold extractTimestamp
  by_cases hc : basename.data.contains '_' = true
  · rw [if_pos hc]
  · rw [if_neg hc]
    have hsp : splitUnderscore basename = [basename] := by
      unfold splitUnderscore
      rw [splitOnChar_no_sep '_' basename.data (Bool.not_eq_true _ ▸ hc)]
      rfl
    rw [hsp]

/-- Counterexample to C8: the basename `2024-01-01_10-00-00` splits into
exactly two segments whose `_`-join parses against the pattern, yet the
parsed snapshot's timestamp is the `now` fallback, because the code demands
at least three segments. -/
theorem c8_counterexample :
    (splitUnderscore "2024-01-01_10-00-00").length = 2 ∧
    parseLayoutFile "2024-01-01_10-00-00" = some ⟨2024, 1, 1, 10, 0, 0⟩ ∧
    parseStatsFile (fun _ => none) aNow "2024-01-01_10-00-00" [] =
      some { Name := "2024-01-01_10-00-00", Timestamp := aNow, Stats := [] } ∧
    aNow ≠ ⟨2024, 1, 1, 10, 0, 0⟩ := by
  refine ⟨?_, ?_, ?_, ?_⟩ <;> with_unfolding_all decide

/-- C8 amended: a successfully parsed snapshot's timestamp equals the value
parsed from the join of the first two `_`-segments only when the base name
has at least THREE `_`-separated segments and that join parses; in every
other case (including a two-segment base name whose join parses) the
timestamp is the wall-clock fallback `now`. -/
theorem c8_timestamp_extraction (unmarshal : String → Option DockerStat) (now : GoTime)
    (basename : String) (lines : List String) (sf : StatsFile)
    (h : parseStatsFile unmarshal now basename lines = some sf) :
    (∀ p0 p1 p2 rest t, splitUnderscore basename = p0 :: p1 :: p2 :: rest →
      parseLayoutFile (p0 ++ "_" ++ p1) = some t → sf.Timestamp = t) ∧
    ((∀ p0 p1 p2 rest, splitUnderscore basename = p0 :: p1 :: p2 :: rest →
      parseLayoutFile (p0 ++ "_" ++ p1) = none) → sf.Timestamp = now) := by
  have hts : sf.Timestamp = extractTimestamp now basename := by
    unfold parseStatsFile at h
    cases hp : parseLines unmarshal lines with
    | none => rw [hp] at h; cases h
    | some stats =>
      rw [hp] at h
      cases h
      rfl
  constructor
  · intro p0 p1 p2 rest t hsplit hparse
    rw [hts, extractTimestamp_eq]
    simp only [hsplit, hparse]
  · intro hfail
    rw [hts, extractTimestamp_eq]
    rcases hsplit : splitUnderscore basename with _ | ⟨p0, _ | ⟨p1, _ | ⟨p2, rest⟩⟩⟩
    · rfl
    · rfl
    · rfl
    · have hnone := hfail p0 p1 p2 rest hsplit
      simp only [hnone]

/-- Witness for the amended C8: a base name with three segments takes the
parsed timestamp; the two-segment counterexample base name keeps `now`. -/
theorem c8_witness :
    ((parseStatsFile (fun _ => none) aNow "2024-01-01_10-00-00_x.json" []).getD
      ⟨"", zeroTime, []⟩).Timestamp = ⟨2024, 1, 1, 10, 0, 0⟩ ∧
    ((parseStatsFile (fun _ => none) aNow "2024-01-01_10-00-00" []).getD
      ⟨"", zeroTime, []⟩).Timestamp = aNow := by
  constructor
  · have h := c8_timestamp_extraction (fun _ => none) aNow "2024-01-01_10-00-00_x.json" []
      { Name := "2024-01-01_10-00-00_x.json", Timestamp := ⟨2024, 1, 1, 10, 0, 0⟩, Stats := [] }
      (by with_unfolding_all decide)
    have := h.1 "2024-01-01" "10-00-00" "x.json" [] ⟨2024, 1, 1, 10, 0, 0⟩
      (by with_unfolding_all decide) (by with_unfolding_all decide)
    with_unfolding_all decide
  · have h := c8_timestamp_extraction (fun _ => none) aNow "2024-01-01_10-00-00" []
      { Name := "2024-01-01_10-00-00", Timestamp := aNow, Stats := [] }
      (by with_unfolding_all decide)
    have := h.2 (by
      intro p0 p1 p2 rest hsplit
      rw [show splitUnderscore "2024-01-01_10-00-00" = ["2024-01-01", "10-00-00"] from by
        with_unfolding_all decide] at hsplit
      cases hsplit)
    with_unfolding_all decide

/-- C9: a refresh step whose collection script fails, whose directory read
fails, or whose reload yields zero snapshots leaves the stored catalog
unchanged; the stored catalog is replaced only when the new load is
non-empty, and then wholesale by the freshly loaded catalog. -/
theorem c9_refresh_preserves_catalog (unmarshal : String → Option DockerStat) (now : GoTime)
    (current : List StatsFile) (runShOk : Bool) (dirEntries : Option (List DirEntry)) :
    (runShOk = false → refreshStep unmarshal now current runShOk dirEntries = current) ∧
    (dirEntries = none → refreshStep unmarshal now current runShOk dirEntries = current) ∧
    (∀ entries, dirEntries = some entries →
      loadAllStatsFiles unmarshal now entries = [] →
      refreshStep unmarshal now current runShOk dirEntries = current) ∧
    (∀ entries, dirEntries = some entries → runShOk = true →
      loadAllStatsFiles unmarshal now entries ≠ [] →
      refreshStep unmarshal now current runShOk dirEntries =
        loadAllStatsFiles unmarshal now entries) := by
  refine ⟨?_, ?_, ?_, ?_⟩
  · intro h
    subst h
    rfl
  · intro h
    subst h
    unfold refreshStep
    cases runShOk <;> rfl
  · intro entries h hload
    subst h
    unfold refreshStep
    cases runShOk
    · rfl
    · simp [hload]
  · intro entries h hok hload
    subst h
    subst hok
    unfold refreshStep
    have : (loadAllStatsFiles unmarshal now entries).isEmpty = false := by
      cases hl : loadAllStatsFiles unmarshal now entries with
      | nil => exact absurd hl hload
      | cons a t => rfl
    simp [this]

/-- Witness for C9: a failed run keeps the old catalog; a successful
non-empty reload replaces it wholesale. -/
theorem c9_witness :
    refreshStep (fun _ => none) aNow nameFiles false (some c1WitnessEntries) = nameFiles ∧
    refreshStep (fun _ => none) aNow nameFiles true (some c1WitnessEntries) =
      loadAllStatsFiles (fun _ => none) aNow c1WitnessEntries := by
  constructor
  · exact (c9_refresh_preserves_catalog (fun _ => none) aNow nameFiles false
      (some c1WitnessEntries)).1 rfl
  · exact (c9_refresh_preserves_catalog (fun _ => none) aNow nameFiles true
      (some c1WitnessEntries)).2.2.2 c1WitnessEntries rfl rfl (by with_unfolding_all decide)

/-- The head of a non-empty list is a member. -/
theorem headD_mem {α : Type} (l : List α) (d : α) (h : l ≠ []) : l.headD d ∈ l := by
  cases l with
  | nil => exact absurd rfl h
  | cons a t => simp

/-- Everything C10 needs about one aggregated group. -/
theorem summarizeGroup_spec (cid name : String) (dps : List ContainerDataPoint)
    (hne : dps ≠ []) :
    1 ≤ (summarizeGroup cid name dps).DataPoints ∧
    (summarizeGroup cid name dps).MinCPU ≤ (summarizeGroup cid name dps).AvgCPU ∧
    (summarizeGroup cid name dps).AvgCPU ≤ (summarizeGroup cid name dps).MaxCPU ∧
    (summarizeGroup cid name dps).MinMem ≤ (summarizeGroup cid name dps).AvgMem ∧
    (summarizeGroup cid name dps).AvgMem ≤ (summarizeGroup cid name dps).MaxMem ∧
    (∃ p ∈ dps, (summarizeGroup cid name dps).FirstSeen = p.Timestamp ∧
      ∀ q ∈ dps, timeKey (parseOrZero p.Timestamp) ≤ timeKey (parseOrZero q.Timestamp)) ∧
    (∃ p ∈ dps, (summarizeGroup cid name dps).LastSeen = p.Timestamp ∧
      ∀ q ∈ dps, timeKey (parseOrZero q.Timestamp) ≤ timeKey (parseOrZero p.Timestamp)) := by
  have hsne : goSortSlice pointLess dps ≠ [] := by
    intro hnil
    have := goSortSlice_length pointLess dps
    rw [hnil] at this
    cases hd : dps with
    | nil => exact hne hd
    | cons a t => rw [hd] at this; simp at this
  have hpw := goSortSlice_pairwise pointLess
    (fun p => timeKey (parseOrZero p.Timestamp)) (fun a b => by simp [pointLess]) dps
  have hmemiff := fun x => goSortSlice_mem pointLess dps x
  have hlen : 0 < (goSortSlice pointLess dps).length := by
    cases hs : goSortSlice pointLess dps with
    | nil => exact absurd hs hsne
    | cons a t => simp
  have hlenQ : (0 : ℚ) < ((goSortSlice pointLess dps).length : ℚ) := by
    exact_mod_cast hlen
  have hseedC : ((goSortSlice pointLess dps).map ContainerDataPoint.CPUPerc).headD 0 =
      ((goSortSlice pointLess dps).headD dpDefault).CPUPerc := by
    cases hs : goSortSlice pointLess dps with
    | nil => exact absurd hs hsne
    | cons a t => rfl
  have hseedM : ((goSortSlice pointLess dps).map ContainerDataPoint.MemPerc).headD 0 =
      ((goSortSlice pointLess dps).headD dpDefault).MemPerc := by
    cases hs : goSortSlice pointLess dps with
    | nil => exact absurd hs hsne
    | cons a t => rfl
  have hneC : (goSortSlice pointLess dps).map ContainerDataPoint.CPUPerc ≠ [] := by
    simpa using hsne
  have hneM : (goSortSlice pointLess dps).map ContainerDataPoint.MemPerc ≠ [] := by
    simpa using hsne
  simp only [summarizeGroup]
  refine ⟨hlen, ?_, ?_, ?_, ?_, ?_, ?_⟩
  · rw [le_div_iff₀ hlenQ, ← hseedC, foldl_add_eq_sum, mul_comm]
    have h := length_mul_le_sum _ _ (listMin_spec _ hneC).2
    rwa [List.length_map] at h
  · rw [div_le_iff₀ hlenQ, ← hseedC, foldl_add_eq_sum, mul_comm]
    have h := sum_le_length_mul _ _ (listMax_spec _ hneC).2
    rwa [List.length_map] at h
  · rw [le_div_iff₀ hlenQ, ← hseedM, foldl_add_eq_sum, mul_comm]
    have h := length_mul_le_sum _ _ (listMin_spec _ hneM).2
    rwa [List.length_map] at h
  · rw [div_le_iff₀ hlenQ, ← hseedM, foldl_add_eq_sum, mul_comm]
    have h := sum_le_length_mul _ _ (listMax_spec _ hneM).2
    rwa [List.length_map] at h
  · refine ⟨(goSortSlice pointLess dps).headD dpDefault,
      (hmemiff _).mp (headD_mem _ _ hsne), rfl, ?_⟩
    intro q hq
    rcases pairwise_headD hpw dpDefault q ((hmemiff q).mpr hq) with h | h
    · rw [h]
    · exact h
  · refine ⟨(goSortSlice pointLess dps).getLastD dpDefault,
      (hmemiff _).mp (getLastD_mem _ _ hsne), rfl, ?_⟩
    intro q hq
    rcases pairwise_getLastD hpw dpDefault q ((hmemiff q).mpr hq) with h | h
    · rw [h]
    · exact h

/-- C10: every summary returned by the all-containers aggregator covers at
least one data point, satisfies MinCPU ≤ AvgCPU ≤ MaxCPU and
MinMem ≤ AvgMem ≤ MaxMem, and its FirstSeen/LastSeen are the timestamps of
a chronologically earliest resp. latest data point of that container. -/
theorem c10_summary_invariants (statsFiles : List StatsFile) (order : List String)
    (s : ContainerSummary) (hs : s ∈ getAllContainerSummaries statsFiles order) :
    1 ≤ s.DataPoints ∧
    s.MinCPU ≤ s.AvgCPU ∧ s.AvgCPU ≤ s.MaxCPU ∧
    s.MinMem ≤ s.AvgMem ∧ s.AvgMem ≤ s.MaxMem ∧
    (∃ p ∈ pointsFor statsFiles s.ContainerID, s.FirstSeen = p.Timestamp ∧
      ∀ q ∈ pointsFor statsFiles s.ContainerID,
        timeKey (parseOrZero p.Timestamp) ≤ timeKey (parseOrZero q.Timestamp)) ∧
    (∃ p ∈ pointsFor statsFiles s.ContainerID, s.LastSeen = p.Timestamp ∧
      ∀ q ∈ pointsFor statsFiles s.ContainerID,
        timeKey (parseOrZero q.Timestamp) ≤ timeKey (parseOrZero p.Timestamp)) := by
  obtain ⟨cid, hmem, hne, rfl⟩ := mem_getAllContainerSummaries.mp hs
  have hcid : (summarizeGroup cid (lastNameFor statsFiles cid)
      (pointsFor statsFiles cid)).ContainerID = cid := rfl
  rw [hcid]
  exact summarizeGroup_spec cid _ _ hne

/-- Witness for C10: the Scenario A summary satisfies the invariants. -/
theorem c10_witness :
    1 ≤ aSummary.DataPoints ∧
    aSummary.MinCPU ≤ aSummary.AvgCPU ∧ aSummary.AvgCPU ≤ aSummary.MaxCPU ∧
    aSummary.MinMem ≤ aSummary.AvgMem ∧ aSummary.AvgMem ≤ aSummary.MaxMem ∧
    (∃ p ∈ pointsFor scenarioACatalog aSummary.ContainerID,
      aSummary.FirstSeen = p.Timestamp ∧
      ∀ q ∈ pointsFor scenarioACatalog aSummary.ContainerID,
        timeKey (parseOrZero p.Timestamp) ≤ timeKey (parseOrZero q.Timestamp)) ∧
    (∃ p ∈ pointsFor scenarioACatalog aSummary.ContainerID,
      aSummary.LastSeen = p.Timestamp ∧
      ∀ q ∈ pointsFor scenarioACatalog aSummary.ContainerID,
        timeKey (parseOrZero q.Timestamp) ≤ timeKey (parseOrZero p.Timestamp)) :=
  c10_summary_invariants scenarioACatalog ["abc"] aSummary (by with_unfolding_all decide)
